import Mathlib

/-!
Verification of the HigherOrderAccurateGradient image filter
(`itkHigherOrderAccurateGradientImageFilter.hxx/.h`).

The filter's own code (region request planning, the spacing check, kernel
setup, the per-face convolution loop and the optional direction transform)
is embedded directly.  The ITK collaborators the filter calls
(`ImageRegion::PadByRadius/Crop`, `ImageBoundaryFacesCalculator`,
`ZeroFluxNeumannBoundaryCondition`, `NeighborhoodInnerProduct`,
`TransformLocalVectorToPhysicalVector`) and the repository's
`HigherOrderAccurateDerivativeOperator` (whose source is not part of this
development) are modelled from their documented contracts.

Scalars are embedded as rationals; integer indices as `Fin N → ℤ`.
-/

namespace ITKHOAG

/-- An axis-aligned index region: integer start plus size per axis
(`itk::ImageRegion`). -/
structure Region (N : ℕ) where
  lower : Fin N → ℤ
  size : Fin N → ℕ
deriving DecidableEq

/-- Index membership in a region. -/
def Region.mem {N : ℕ} (r : Region N) (x : Fin N → ℤ) : Prop :=
  ∀ i, r.lower i ≤ x i ∧ x i < r.lower i + (r.size i : ℤ)

instance {N : ℕ} (r : Region N) (x : Fin N → ℤ) : Decidable (r.mem x) :=
  inferInstanceAs (Decidable (∀ i, r.lower i ≤ x i ∧ x i < r.lower i + (r.size i : ℤ)))

/-- Containment `a.isInside b`: every index of `a` (interval-wise, per axis) lies in `b`
(`itk::ImageRegion::IsInside`). -/
def Region.isInside {N : ℕ} (a b : Region N) : Prop :=
  ∀ i, b.lower i ≤ a.lower i ∧ a.lower i + (a.size i : ℤ) ≤ b.lower i + (b.size i : ℤ)

instance {N : ℕ} (a b : Region N) : Decidable (a.isInside b) :=
  inferInstanceAs (Decidable (∀ i, _ ∧ _))

/-- Replace the extent of `r` along axis `i` by start `lo` and size `sz`,
leaving all other axes unchanged. -/
def Region.withAxis {N : ℕ} (r : Region N) (i : Fin N) (lo : ℤ) (sz : ℕ) : Region N :=
  ⟨Function.update r.lower i lo, Function.update r.size i sz⟩

/- Section:
Boundary face decomposition.

Modelled from the spec: the `BoundaryFaceDecomposer`
(`itk::NeighborhoodAlgorithm::ImageBoundaryFacesCalculator`, outside this
repository) splits a region to process, given the image's buffered region
`B` and a per-axis halo radius, into one interior face whose every index
has its full neighborhood inside `B`, plus thin boundary slabs carved
axis by axis from the low and high ends.
-/

/-- How many leading indices along axis `i` of the current non-boundary
region `nb` are within `rad i` of the low edge of the buffered region `B`. -/
def lowCut {N : ℕ} (B : Region N) (rad : Fin N → ℕ) (i : Fin N) (nb : Region N) : ℕ :=
  min (B.lower i + (rad i : ℤ) - nb.lower i).toNat (nb.size i)

/-- Region `nb` with its low boundary slab along axis `i` removed. -/
def shrinkLow {N : ℕ} (B : Region N) (rad : Fin N → ℕ) (i : Fin N) (nb : Region N) : Region N :=
  nb.withAxis i (nb.lower i + (lowCut B rad i nb : ℤ)) (nb.size i - lowCut B rad i nb)

/-- How many trailing indices along axis `i` (after the low cut) are within
`rad i` of the high edge of the buffered region `B`. -/
def highCut {N : ℕ} (B : Region N) (rad : Fin N → ℕ) (i : Fin N) (nb : Region N) : ℕ :=
  min (((shrinkLow B rad i nb).lower i + ((shrinkLow B rad i nb).size i : ℤ))
        - (B.lower i + (B.size i : ℤ) - (rad i : ℤ))).toNat
    ((shrinkLow B rad i nb).size i)

/-- Region `nb` with both boundary slabs along axis `i` removed. -/
def shrinkHigh {N : ℕ} (B : Region N) (rad : Fin N → ℕ) (i : Fin N) (nb : Region N) : Region N :=
  (shrinkLow B rad i nb).withAxis i ((shrinkLow B rad i nb).lower i)
    ((shrinkLow B rad i nb).size i - highCut B rad i nb)

/-- The low boundary slab carved from `nb` along axis `i`. -/
def lowFace {N : ℕ} (B : Region N) (rad : Fin N → ℕ) (i : Fin N) (nb : Region N) : Region N :=
  nb.withAxis i (nb.lower i) (lowCut B rad i nb)

/-- The high boundary slab carved from `nb` along axis `i`. -/
def highFace {N : ℕ} (B : Region N) (rad : Fin N → ℕ) (i : Fin N) (nb : Region N) : Region N :=
  (shrinkLow B rad i nb).withAxis i
    ((shrinkLow B rad i nb).lower i
      + (((shrinkLow B rad i nb).size i - highCut B rad i nb : ℕ) : ℤ))
    (highCut B rad i nb)

/-- Carve boundary slabs for each axis in `axes` in turn; returns the final
interior region and the list of boundary slabs. -/
def decompose {N : ℕ} (B : Region N) (rad : Fin N → ℕ) :
    List (Fin N) → Region N → Region N × List (Region N)
  | [], nb => (nb, [])
  | i :: rest, nb =>
    let res := decompose B rad rest (shrinkHigh B rad i nb)
    (res.1, lowFace B rad i nb :: highFace B rad i nb :: res.2)

/-- A face: a sub-region tagged interior or boundary. -/
structure Face (N : ℕ) where
  region : Region N
  isInterior : Bool
deriving DecidableEq

/-- The face list for processing region `R` inside buffered region `B` with
per-axis halo radius `rad`. -/
def computeFaceList {N : ℕ} (B R : Region N) (rad : Fin N → ℕ) : List (Face N) :=
  ⟨(decompose B rad (List.finRange N) R).1, true⟩ ::
    ((decompose B rad (List.finRange N) R).2.map fun r => ⟨r, false⟩)

/-- Along axis `i`, the full neighborhood of radius `rad i` centered at `x`
stays inside `B`. -/
def fullNbhdAxis {N : ℕ} (B : Region N) (rad : Fin N → ℕ) (i : Fin N) (x : Fin N → ℤ) : Prop :=
  B.lower i + (rad i : ℤ) ≤ x i ∧ x i + (rad i : ℤ) < B.lower i + (B.size i : ℤ)

/-- The full neighborhood of `x` stays inside `B` on every axis. -/
def fullNbhd {N : ℕ} (B : Region N) (rad : Fin N → ℕ) (x : Fin N → ℤ) : Prop :=
  ∀ i, fullNbhdAxis B rad i x

/-- Index `x` is within the halo radius of some edge of `B`. -/
def nearEdge {N : ℕ} (B : Region N) (rad : Fin N → ℕ) (x : Fin N → ℤ) : Prop :=
  ∃ i, x i < B.lower i + (rad i : ℤ) ∨ B.lower i + (B.size i : ℤ) ≤ x i + (rad i : ℤ)

/- Section:
The derivative operator.

Modelled from the spec: the repository's
`HigherOrderAccurateDerivativeOperator` (its source file is not part of
this development) builds, for derivative order 1 and order of accuracy
`m`, a central-difference kernel of radius `m` (length `2*m+1`) from the
closed-form expressions of Khan & Ohba cited in the filter's header, then
exposes `FlipAxes` (reverse coefficient order) and `ScaleCoefficients`
(multiply every coefficient by a constant).
-/

/-- Radius of the first-derivative kernel at order of accuracy `m`. -/
def operatorRadius (m : ℕ) : ℕ := m

/-- Khan–Ohba side weight for offset `k ≥ 1` at order of accuracy `m`:
`(-1)^(k+1) * (m!)^2 / (k * (m-k)! * (m+k)!)`. -/
def khanOhbaWeight (m k : ℕ) : ℚ :=
  (-1 : ℚ) ^ (k + 1) * (Nat.factorial m : ℚ) ^ 2
    / ((k : ℚ) * (Nat.factorial (m - k) : ℚ) * (Nat.factorial (m + k) : ℚ))

/-- The as-built kernel coefficient at offset `o ∈ [-m, m]` (ITK convention:
the positive weight sits at the negative offset before `FlipAxes`). -/
def buildCoeff (m : ℕ) (o : ℤ) : ℚ :=
  if o = 0 then 0
  else if 0 < o then -khanOhbaWeight m o.toNat
  else khanOhbaWeight m (-o).toNat

/-- Operation `FlipAxes`: reverse the coefficient order (negate the offset). -/
def flipCoeff (c : ℤ → ℚ) : ℤ → ℚ := fun o => c (-o)

/-- Operation `ScaleCoefficients`: multiply every coefficient by `s`. -/
def scaleCoeff (s : ℚ) (c : ℤ → ℚ) : ℤ → ℚ := fun o => s * c o

/-- The coefficients the filter convolves with on axis `i`: built, flipped
and, when `UseImageSpacing` is on, scaled by `1/spacing i`
(`DynamicThreadedGenerateData`, operator setup loop). -/
def effectiveCoeff {N : ℕ} (useSpacing : Bool) (m : ℕ) (spacing : Fin N → ℚ) (i : Fin N) :
    ℤ → ℚ :=
  if useSpacing then scaleCoeff (1 / spacing i) (flipCoeff (buildCoeff m))
  else flipCoeff (buildCoeff m)

/- Section:
The input grid and the per-sample computation.
-/

/-- The input grid: buffered index region, per-axis spacing, direction-cosine
matrix, and sample data. -/
structure InputImage (N : ℕ) where
  buffered : Region N
  spacing : Fin N → ℚ
  direction : Fin N → Fin N → ℚ
  data : (Fin N → ℤ) → ℚ

/-- Clamp an index per axis into the buffered region
(`ZeroFluxNeumannBoundaryCondition`: reuse the nearest in-bounds sample). -/
def clampIndex {N : ℕ} (b : Region N) (x : Fin N → ℤ) : Fin N → ℤ :=
  fun i => max (b.lower i) (min (x i) (b.lower i + (b.size i : ℤ) - 1))

/-- The neighborhood sample at offset `o` along axis `i` from center `x`,
with zero-flux edge extension. -/
def sampleAt {N : ℕ} (img : InputImage N) (x : Fin N → ℤ) (i : Fin N) (o : ℤ) : ℚ :=
  img.data (clampIndex img.buffered (Function.update x i (x i + o)))

/-- Filter configuration (`m_UseImageSpacing`, `m_UseImageDirection`,
`m_OrderOfAccuracy`, with the header's defaults). -/
structure GradConfig where
  useImageSpacing : Bool := true
  useImageDirection : Bool := true
  orderOfAccuracy : ℕ := 2

/-- The raw gradient at `x`: component `i` is the inner product of the
`2*m+1` neighborhood samples along axis `i` with that axis's effective
coefficients (`NeighborhoodInnerProduct` over `x_slice[i]`). -/
def rawGradient {N : ℕ} (cfg : GradConfig) (img : InputImage N) (x : Fin N → ℤ) :
    Fin N → ℚ :=
  fun i =>
    ∑ k ∈ Finset.range (2 * operatorRadius cfg.orderOfAccuracy + 1),
      sampleAt img x i ((k : ℤ) - (operatorRadius cfg.orderOfAccuracy : ℤ))
        * effectiveCoeff cfg.useImageSpacing cfg.orderOfAccuracy img.spacing i
            ((k : ℤ) - (operatorRadius cfg.orderOfAccuracy : ℤ))

/-- Primitive `TransformLocalVectorToPhysicalVector`: multiply by the grid's
direction-cosine matrix. -/
def applyDirection {N : ℕ} (d : Fin N → Fin N → ℚ) (v : Fin N → ℚ) : Fin N → ℚ :=
  fun j => ∑ k, d j k * v k

/-- The vector stored for sample `x`: the raw gradient, direction-corrected
when `UseImageDirection` is on. -/
def storedValue {N : ℕ} (cfg : GradConfig) (img : InputImage N) (x : Fin N → ℤ) :
    Fin N → ℚ :=
  if cfg.useImageDirection then applyDirection img.direction (rawGradient cfg img x)
  else rawGradient cfg img x

/-- An exception object carrying its description
(`itkExceptionMacro` / `InvalidRequestedRegionError`). -/
structure FilterError where
  description : String
deriving DecidableEq

/-- Method `DynamicThreadedGenerateData`: validate spacing during operator setup
(throwing before any sample is processed, leaving the output untouched),
then process every face of the boundary-face decomposition of
`outputRegion`, writing the per-sample stored value into the output grid.
Returns the raised error (if any) and the output grid contents. -/
def dynamicThreadedGenerateData {N : ℕ} (cfg : GradConfig) (img : InputImage N)
    (outputRegion : Region N) (out0 : (Fin N → ℤ) → Fin N → ℚ) :
    Option FilterError × ((Fin N → ℤ) → Fin N → ℚ) :=
  if cfg.useImageSpacing ∧ ∃ i, img.spacing i = 0 then
    (some ⟨"Image spacing cannot be zero."⟩, out0)
  else
    (none,
      (computeFaceList img.buffered outputRegion
          (fun _ => operatorRadius cfg.orderOfAccuracy)).foldl
        (fun acc f => fun x => if f.region.mem x then storedValue cfg img x else acc x)
        out0)

/- Section:
Input requested region planning (`GenerateInputRequestedRegion`).

`PadByRadius` and `Crop` are `itk::ImageRegion` primitives, modelled from
their contracts: pad widens every axis by the radius on both sides; crop
intersects with the bound when the two regions overlap (returning true),
and leaves the region unchanged returning false when they are disjoint
along some axis.
-/

/-- Primitive `ImageRegion::PadByRadius` with a scalar radius. -/
def padByRadius {N : ℕ} (r : Region N) (rad : ℕ) : Region N :=
  ⟨fun i => r.lower i - (rad : ℤ), fun i => r.size i + 2 * rad⟩

/-- Primitive `ImageRegion::Crop` succeeds iff the two regions overlap on every axis. -/
def cropPossible {N : ℕ} (r b : Region N) : Prop :=
  ∀ i, r.lower i < b.lower i + (b.size i : ℤ) ∧ b.lower i < r.lower i + (r.size i : ℤ)

instance {N : ℕ} (r b : Region N) : Decidable (cropPossible r b) :=
  inferInstanceAs (Decidable (∀ i, _ ∧ _))

/-- The cropped (intersected) region computed by `ImageRegion::Crop` when
cropping is possible. -/
def cropRegion {N : ℕ} (r b : Region N) : Region N :=
  ⟨fun i => max (r.lower i) (b.lower i),
   fun i => (min (r.lower i + (r.size i : ℤ)) (b.lower i + (b.size i : ℤ))
              - max (r.lower i) (b.lower i)).toNat⟩

/-- Primitive `ImageRegion::Crop`: returns the success flag and the (possibly
mutated) region; on failure the region is left unchanged. -/
def crop {N : ℕ} (r b : Region N) : Bool × Region N :=
  if cropPossible r b then (true, cropRegion r b) else (false, r)

/-- Outcome of `GenerateInputRequestedRegion`: no-op (a grid reference was
absent), success with the new input requested region, or an
`InvalidRequestedRegionError` recording the attempted requested region. -/
inductive GIRResult (N : ℕ) where
  | noop : GIRResult N
  | ok : Region N → GIRResult N
  | regionError : Region N → GIRResult N
deriving DecidableEq

/-- Method `GenerateInputRequestedRegion`: after the superclass copies the output
requested region to the input, pad it by the derivative-kernel radius
(order 1, configured order of accuracy) and crop at the input's largest
possible region.  On crop failure, record the attempted (uncropped padded)
region and throw. -/
def generateInputRequestedRegion {N : ℕ} (inputPresent outputPresent : Bool)
    (outputRequested largest : Region N) (m : ℕ) : GIRResult N :=
  if inputPresent = false ∨ outputPresent = false then .noop
  else
    match crop (padByRadius outputRequested (operatorRadius m)) largest with
    | (true, r) => .ok r
    | (false, r) => .regionError r

/- Section:
Lemmas: the boundary face decomposition is an exact partition.
-/

/-- Membership in all axes except `i`. -/
def offAxisMem {N : ℕ} (r : Region N) (i : Fin N) (x : Fin N → ℤ) : Prop :=
  ∀ j, j ≠ i → r.lower j ≤ x j ∧ x j < r.lower j + (r.size j : ℤ)

instance {N : ℕ} (r : Region N) (i : Fin N) (x : Fin N → ℤ) :
    Decidable (offAxisMem r i x) :=
  inferInstanceAs (Decidable (∀ j, j ≠ i → r.lower j ≤ x j ∧ x j < r.lower j + (r.size j : ℤ)))

theorem mem_withAxis {N : ℕ} (r : Region N) (i : Fin N) (lo : ℤ) (sz : ℕ) (x : Fin N → ℤ) :
    (r.withAxis i lo sz).mem x ↔
      offAxisMem r i x ∧ (lo ≤ x i ∧ x i < lo + (sz : ℤ)) := by
  constructor
  · intro h
    refine ⟨fun j hj => ?_, ?_⟩
    · have := h j
      simpa [Region.withAxis, Function.update_noteq hj] using this
    · have := h i
      simpa [Region.withAxis] using this
  · rintro ⟨hoff, hi⟩ j
    by_cases hj : j = i
    · subst hj
      simpa [Region.withAxis] using hi
    · simpa [Region.withAxis, Function.update_noteq hj] using hoff j hj

theorem mem_iff_offAxis {N : ℕ} (r : Region N) (i : Fin N) (x : Fin N → ℤ) :
    r.mem x ↔ offAxisMem r i x ∧ (r.lower i ≤ x i ∧ x i < r.lower i + (r.size i : ℤ)) := by
  constructor
  · intro h
    exact ⟨fun j _ => h j, h i⟩
  · rintro ⟨hoff, hi⟩ j
    by_cases hj : j = i
    · subst hj; exact hi
    · exact hoff j hj

theorem step_indicator {N : ℕ} (B : Region N) (rad : Fin N → ℕ) (i : Fin N)
    (nb : Region N) (x : Fin N → ℤ) :
    ((if (lowFace B rad i nb).mem x then 1 else 0)
      + (if (highFace B rad i nb).mem x then 1 else 0)
      + (if (shrinkHigh B rad i nb).mem x then 1 else 0) : ℕ)
      = if nb.mem x then 1 else 0 := by
  have hl : lowCut B rad i nb ≤ nb.size i := min_le_right _ _
  have hlow := mem_withAxis nb i (nb.lower i) (lowCut B rad i nb) x
  have hsl := mem_withAxis nb i (nb.lower i + (lowCut B rad i nb : ℤ))
    (nb.size i - lowCut B rad i nb) x
  have hnb := mem_iff_offAxis nb i x
  have hhigh := mem_withAxis (shrinkLow B rad i nb) i
    ((shrinkLow B rad i nb).lower i
      + (((shrinkLow B rad i nb).size i - highCut B rad i nb : ℕ) : ℤ))
    (highCut B rad i nb) x
  have hsh := mem_withAxis (shrinkLow B rad i nb) i ((shrinkLow B rad i nb).lower i)
    ((shrinkLow B rad i nb).size i - highCut B rad i nb) x
  have hso : offAxisMem (shrinkLow B rad i nb) i x ↔ offAxisMem nb i x := by
    constructor
    · intro h j hj
      have := h j hj
      simpa [shrinkLow, Region.withAxis, Function.update_noteq hj] using this
    · intro h j hj
      have := h j hj
      simpa [shrinkLow, Region.withAxis, Function.update_noteq hj] using this
  have hslo : (shrinkLow B rad i nb).lower i = nb.lower i + (lowCut B rad i nb : ℤ) := by
    simp [shrinkLow, Region.withAxis]
  have hsls : (shrinkLow B rad i nb).size i = nb.size i - lowCut B rad i nb := by
    simp [shrinkLow, Region.withAxis]
  have hh : highCut B rad i nb ≤ nb.size i - lowCut B rad i nb := by
    have := min_le_right (((shrinkLow B rad i nb).lower i + ((shrinkLow B rad i nb).size i : ℤ))
      - (B.lower i + (B.size i : ℤ) - (rad i : ℤ))).toNat ((shrinkLow B rad i nb).size i)
    simpa [highCut, hsls] using this
  simp only [lowFace, highFace, shrinkHigh]
  simp only [hlow, hhigh, hsh, hnb]
  simp only [hso, hslo, hsls]
  by_cases hoff : offAxisMem nb i x
  · simp only [hoff, true_and]
    split_ifs <;> omega
  · simp [hoff]

theorem decompose_indicator {N : ℕ} (B : Region N) (rad : Fin N → ℕ) (axes : List (Fin N)) :
    ∀ (nb : Region N) (x : Fin N → ℤ),
      ((if (decompose B rad axes nb).1.mem x then 1 else 0) : ℕ)
        + List.countP (fun r => decide (Region.mem r x)) (decompose B rad axes nb).2
      = if nb.mem x then 1 else 0 := by
  induction axes with
  | nil => intro nb x; simp [decompose]
  | cons i rest ih =>
    intro nb x
    have hstep := step_indicator B rad i nb x
    have hrec := ih (shrinkHigh B rad i nb) x
    simp only [decompose, List.countP_cons, decide_eq_true_eq]
    split_ifs at hstep hrec ⊢ <;> omega

/- Lemmas: face tags are correct. -/

theorem shrinkHigh_mem {N : ℕ} (B : Region N) (rad : Fin N → ℕ) (i : Fin N)
    (nb : Region N) (x : Fin N → ℤ) (h : (shrinkHigh B rad i nb).mem x) :
    nb.mem x ∧ fullNbhdAxis B rad i x := by
  have hl : lowCut B rad i nb ≤ nb.size i := min_le_right _ _
  have hslo : (shrinkLow B rad i nb).lower i = nb.lower i + (lowCut B rad i nb : ℤ) := by
    simp [shrinkLow, Region.withAxis]
  have hsls : (shrinkLow B rad i nb).size i = nb.size i - lowCut B rad i nb := by
    simp [shrinkLow, Region.withAxis]
  have hso : offAxisMem (shrinkLow B rad i nb) i x ↔ offAxisMem nb i x := by
    constructor
    · intro h j hj
      have := h j hj
      simpa [shrinkLow, Region.withAxis, Function.update_noteq hj] using this
    · intro h j hj
      have := h j hj
      simpa [shrinkLow, Region.withAxis, Function.update_noteq hj] using this
  rw [shrinkHigh, mem_withAxis, hso, hslo, hsls] at h
  obtain ⟨hoff, hint⟩ := h
  have hlowcut : lowCut B rad i nb
      = min (B.lower i + (rad i : ℤ) - nb.lower i).toNat (nb.size i) := rfl
  have hhighcut : highCut B rad i nb
      = min (((nb.lower i + (lowCut B rad i nb : ℤ))
                + ((nb.size i - lowCut B rad i nb : ℕ) : ℤ))
              - (B.lower i + (B.size i : ℤ) - (rad i : ℤ))).toNat
          (nb.size i - lowCut B rad i nb) := by
    rw [highCut, hslo, hsls]
  rw [hhighcut, hlowcut] at hint
  constructor
  · rw [mem_iff_offAxis nb i]
    exact ⟨hoff, by omega⟩
  · exact ⟨by omega, by omega⟩

theorem decompose_interior_mem {N : ℕ} (B : Region N) (rad : Fin N → ℕ)
    (axes : List (Fin N)) : ∀ (nb : Region N) (x : Fin N → ℤ),
    (decompose B rad axes nb).1.mem x → nb.mem x := by
  induction axes with
  | nil => intro nb x h; simpa [decompose] using h
  | cons i rest ih =>
    intro nb x h
    simp only [decompose] at h
    exact (shrinkHigh_mem B rad i nb x (ih _ x h)).1

theorem decompose_interior_fullNbhd {N : ℕ} (B : Region N) (rad : Fin N → ℕ)
    (axes : List (Fin N)) : ∀ (nb : Region N) (x : Fin N → ℤ),
    (decompose B rad axes nb).1.mem x → ∀ i ∈ axes, fullNbhdAxis B rad i x := by
  induction axes with
  | nil => intro nb x _ i hi; exact absurd hi (List.not_mem_nil i)
  | cons j rest ih =>
    intro nb x h i hi
    simp only [decompose] at h
    rcases List.mem_cons.mp hi with hij | hir
    · subst hij
      exact (shrinkHigh_mem B rad i nb x (decompose_interior_mem B rad rest _ x h)).2
    · exact ih _ x h i hir

theorem lowFace_nearEdge {N : ℕ} (B : Region N) (rad : Fin N → ℕ) (i : Fin N)
    (nb : Region N) (x : Fin N → ℤ) (h : (lowFace B rad i nb).mem x) :
    nearEdge B rad x := by
  rw [lowFace, mem_withAxis] at h
  refine ⟨i, Or.inl ?_⟩
  have hint := h.2
  have : lowCut B rad i nb = min (B.lower i + (rad i : ℤ) - nb.lower i).toNat (nb.size i) := rfl
  rw [this] at hint
  omega

theorem highFace_nearEdge {N : ℕ} (B : Region N) (rad : Fin N → ℕ) (i : Fin N)
    (nb : Region N) (x : Fin N → ℤ) (h : (highFace B rad i nb).mem x) :
    nearEdge B rad x := by
  have hslo : (shrinkLow B rad i nb).lower i = nb.lower i + (lowCut B rad i nb : ℤ) := by
    simp [shrinkLow, Region.withAxis]
  have hsls : (shrinkLow B rad i nb).size i = nb.size i - lowCut B rad i nb := by
    simp [shrinkLow, Region.withAxis]
  rw [highFace, mem_withAxis, hslo, hsls] at h
  refine ⟨i, Or.inr ?_⟩
  have hint := h.2
  have hhighcut : highCut B rad i nb
      = min (((nb.lower i + (lowCut B rad i nb : ℤ))
                + ((nb.size i - lowCut B rad i nb : ℕ) : ℤ))
              - (B.lower i + (B.size i : ℤ) - (rad i : ℤ))).toNat
          (nb.size i - lowCut B rad i nb) := by
    rw [highCut, hslo, hsls]
  rw [hhighcut] at hint
  have hl : lowCut B rad i nb ≤ nb.size i := min_le_right _ _
  omega

theorem decompose_boundary_nearEdge {N : ℕ} (B : Region N) (rad : Fin N → ℕ)
    (axes : List (Fin N)) : ∀ (nb : Region N) (r : Region N),
    r ∈ (decompose B rad axes nb).2 → ∀ x, r.mem x → nearEdge B rad x := by
  induction axes with
  | nil => intro nb r hr; simp [decompose] at hr
  | cons i rest ih =>
    intro nb r hr x hx
    simp only [decompose, List.mem_cons] at hr
    rcases hr with h1 | h2 | h3
    · exact lowFace_nearEdge B rad i nb x (h1 ▸ hx)
    · exact highFace_nearEdge B rad i nb x (h2 ▸ hx)
    · exact ih _ r h3 x hx

/-- The face list of the full decomposition covers region `R` exactly once
per index of `R` and never covers an outside index. -/
theorem faceList_countP {N : ℕ} (B R : Region N) (rad : Fin N → ℕ) (x : Fin N → ℤ) :
    List.countP (fun f => decide (Region.mem f.region x)) (computeFaceList B R rad)
      = if R.mem x then 1 else 0 := by
  have h := decompose_indicator B rad (List.finRange N) R x
  rw [computeFaceList, List.countP_cons, List.countP_map]
  have hc : ((fun f => decide (Region.mem (Face.region f) x)) ∘ fun r => Face.mk r false)
      = fun r => decide (Region.mem r x) := rfl
  rw [hc]
  simp only [decide_eq_true_eq] at h ⊢
  split_ifs at h ⊢ <;> omega

/-- Some face of the face list contains `x` iff `x` is in the processed
region `R`. -/
theorem faceList_covers {N : ℕ} (B R : Region N) (rad : Fin N → ℕ) (x : Fin N → ℤ) :
    (∃ f ∈ computeFaceList B R rad, f.region.mem x) ↔ R.mem x := by
  have h := faceList_countP B R rad x
  constructor
  · intro hex
    by_contra hmem
    rw [if_neg hmem] at h
    obtain ⟨f, hf, hfx⟩ := hex
    have : 0 < List.countP (fun f => decide (Region.mem f.region x)) (computeFaceList B R rad) :=
      List.countP_pos.mpr ⟨f, hf, by simpa using hfx⟩
    omega
  · intro hmem
    rw [if_pos hmem] at h
    have : 0 < List.countP (fun f => decide (Region.mem f.region x)) (computeFaceList B R rad) := by
      omega
    obtain ⟨f, hf, hfx⟩ := List.countP_pos.mp this
    exact ⟨f, hf, by simpa using hfx⟩

/- Section:
Lemmas: the face-processing loop as a pointwise description.
-/

theorem foldl_faces_apply {N : ℕ} (g : (Fin N → ℤ) → Fin N → ℚ) (faces : List (Face N)) :
    ∀ (acc : (Fin N → ℤ) → Fin N → ℚ) (x : Fin N → ℤ),
    (faces.foldl (fun acc f => fun y => if f.region.mem y then g y else acc y) acc) x
      = if ∃ f ∈ faces, f.region.mem x then g x else acc x := by
  induction faces with
  | nil => intro acc x; simp
  | cons f rest ih =>
    intro acc x
    rw [List.foldl_cons, ih]
    by_cases hf : f.region.mem x <;>
      by_cases hrest : ∃ f' ∈ rest, f'.region.mem x <;>
        simp [List.exists_mem_cons_iff, hf, hrest]

/-- With valid spacing, the per-region compute raises nothing and writes the
per-sample stored value at exactly the indices of the processed region. -/
theorem dynamicThreaded_apply {N : ℕ} (cfg : GradConfig) (img : InputImage N)
    (outputRegion : Region N) (out0 : (Fin N → ℤ) → Fin N → ℚ)
    (hok : ¬(cfg.useImageSpacing ∧ ∃ i, img.spacing i = 0)) (x : Fin N → ℤ) :
    (dynamicThreadedGenerateData cfg img outputRegion out0).1 = none ∧
    (dynamicThreadedGenerateData cfg img outputRegion out0).2 x
      = if outputRegion.mem x then storedValue cfg img x else out0 x := by
  have h2 : (dynamicThreadedGenerateData cfg img outputRegion out0).2
      = (computeFaceList img.buffered outputRegion
          (fun _ => operatorRadius cfg.orderOfAccuracy)).foldl
        (fun acc f => fun y => if f.region.mem y then storedValue cfg img y else acc y)
        out0 := by
    rw [dynamicThreadedGenerateData, if_neg hok]
  constructor
  · rw [dynamicThreadedGenerateData, if_neg hok]
  · rw [h2, foldl_faces_apply]
    by_cases hmem : outputRegion.mem x
    · rw [if_pos hmem,
        if_pos ((faceList_covers img.buffered outputRegion
          (fun _ => operatorRadius cfg.orderOfAccuracy) x).mpr hmem)]
    · rw [if_neg hmem,
        if_neg (fun hc => hmem ((faceList_covers img.buffered outputRegion
          (fun _ => operatorRadius cfg.orderOfAccuracy) x).mp hc))]

/-- With invalid spacing, the per-region compute raises the exception and
leaves the output untouched. -/
theorem dynamicThreaded_fault {N : ℕ} (cfg : GradConfig) (img : InputImage N)
    (outputRegion : Region N) (out0 : (Fin N → ℤ) → Fin N → ℚ)
    (hbad : cfg.useImageSpacing ∧ ∃ i, img.spacing i = 0) :
    dynamicThreadedGenerateData cfg img outputRegion out0
      = (some ⟨"Image spacing cannot be zero."⟩, out0) := by
  rw [dynamicThreadedGenerateData, if_pos hbad]

/- Section:
Lemmas: the derivative kernel is antisymmetric and sums to zero.
-/

theorem buildCoeff_odd (m : ℕ) (o : ℤ) : buildCoeff m (-o) = -buildCoeff m o := by
  rcases lt_trichotomy o 0 with h | h | h
  · rw [buildCoeff, buildCoeff,
      if_neg (show ¬(-o = 0) by omega), if_pos (show (0 : ℤ) < -o by omega),
      if_neg (show ¬(o = 0) by omega), if_neg (show ¬((0 : ℤ) < o) by omega)]
  · subst h
    simp [buildCoeff]
  · rw [buildCoeff, buildCoeff,
      if_neg (show ¬(-o = 0) by omega), if_neg (show ¬((0 : ℤ) < -o) by omega),
      if_neg (show ¬(o = 0) by omega), if_pos h, neg_neg, neg_neg]

theorem effectiveCoeff_odd {N : ℕ} (useSpacing : Bool) (m : ℕ) (spacing : Fin N → ℚ)
    (i : Fin N) (o : ℤ) :
    effectiveCoeff useSpacing m spacing i (-o) = -effectiveCoeff useSpacing m spacing i o := by
  have hb := buildCoeff_odd m o
  cases useSpacing <;> simp [effectiveCoeff, scaleCoeff, flipCoeff, neg_neg, hb]

/-- An odd coefficient function sums to zero over the symmetric window of
slice positions `0, …, 2m`. -/
theorem sum_window_odd_eq_zero (m : ℕ) (c : ℤ → ℚ) (hodd : ∀ o, c (-o) = -c o) :
    ∑ k ∈ Finset.range (2 * m + 1), c ((k : ℤ) - (m : ℤ)) = 0 := by
  have hc0 : c 0 = 0 := by
    have h := hodd 0
    simp at h
    linarith
  apply Finset.sum_involution (fun k _ => 2 * m - k)
  · intro k ha
    have hk : k < 2 * m + 1 := Finset.mem_range.mp ha
    have h1 : ((2 * m - k : ℕ) : ℤ) - (m : ℤ) = -((k : ℤ) - (m : ℤ)) := by omega
    rw [h1, hodd]
    ring
  · intro k ha hne hfix
    have hk : k < 2 * m + 1 := Finset.mem_range.mp ha
    have hkm : k = m := by omega
    apply hne
    subst hkm
    simpa using hc0
  · intro k ha
    have hk : k < 2 * m + 1 := Finset.mem_range.mp ha
    exact Finset.mem_range.mpr (by omega)
  · intro k ha
    have hk : k < 2 * m + 1 := Finset.mem_range.mp ha
    omega

/-- The effective kernel annihilates constants: its coefficients sum to 0. -/
theorem sum_effectiveCoeff_eq_zero {N : ℕ} (useSpacing : Bool) (m : ℕ)
    (spacing : Fin N → ℚ) (i : Fin N) :
    ∑ k ∈ Finset.range (2 * operatorRadius m + 1),
      effectiveCoeff useSpacing m spacing i ((k : ℤ) - (operatorRadius m : ℤ)) = 0 :=
  sum_window_odd_eq_zero (operatorRadius m) _ (effectiveCoeff_odd useSpacing m spacing i)

/-- Applying the identity direction matrix is the identity. -/
theorem applyDirection_id {N : ℕ} (d : Fin N → Fin N → ℚ)
    (hid : ∀ j k, d j k = if j = k then 1 else 0) (v : Fin N → ℚ) :
    applyDirection d v = v := by
  funext j
  rw [applyDirection]
  have : ∀ k, d j k * v k = if k = j then v k else 0 := by
    intro k
    rw [hid j k]
    by_cases h : j = k <;> simp [h, eq_comm]
  rw [Finset.sum_congr rfl (fun k _ => this k), Finset.sum_ite_eq' Finset.univ j v]
  simp

/- Section:
Lemmas: region request planning.
-/

theorem gir_noop {N : ℕ} (ip op : Bool) (outputRequested largest : Region N) (m : ℕ)
    (h : ip = false ∨ op = false) :
    generateInputRequestedRegion ip op outputRequested largest m = .noop := by
  rw [generateInputRequestedRegion, if_pos h]

theorem gir_ok {N : ℕ} (outputRequested largest : Region N) (m : ℕ)
    (h : cropPossible (padByRadius outputRequested (operatorRadius m)) largest) :
    generateInputRequestedRegion true true outputRequested largest m
      = .ok (cropRegion (padByRadius outputRequested (operatorRadius m)) largest) := by
  rw [generateInputRequestedRegion, if_neg (by simp), crop, if_pos h]

theorem gir_error {N : ℕ} (outputRequested largest : Region N) (m : ℕ)
    (h : ¬cropPossible (padByRadius outputRequested (operatorRadius m)) largest) :
    generateInputRequestedRegion true true outputRequested largest m
      = .regionError (padByRadius outputRequested (operatorRadius m)) := by
  rw [generateInputRequestedRegion, if_neg (by simp), crop, if_neg h]

/- Section:
Concrete fixtures used to witness the claims.
-/

/-- A 1-D buffered region `[0, 10)`. -/
def bufTen : Region 1 := ⟨fun _ => 0, fun _ => 10⟩

/-- A 1-D output region `[0, 3)`. -/
def regLowThree : Region 1 := ⟨fun _ => 0, fun _ => 3⟩

/-- A 1-D output region `[0, 4)`. -/
def regFour : Region 1 := ⟨fun _ => 0, fun _ => 4⟩

/-- A 1-D output region `[1, 3)`. -/
def regMid : Region 1 := ⟨fun _ => 1, fun _ => 2⟩

/-- A 1-D region far outside `bufTen`: `[20, 22)`. -/
def regFar : Region 1 := ⟨fun _ => 20, fun _ => 2⟩

/-- A 1-D identity direction matrix. -/
def dirId : Fin 1 → Fin 1 → ℚ := fun j k => if j = k then 1 else 0

/-- A 1-D ramp image on buffered region `[0, 4)` with unit spacing. -/
def imgRamp : InputImage 1 := ⟨⟨fun _ => 0, fun _ => 4⟩, fun _ => 1, dirId, fun y => (y 0 : ℚ)⟩

/-- The ramp image with negative spacing `-1` on axis 0. -/
def imgNegSpacing : InputImage 1 :=
  ⟨⟨fun _ => 0, fun _ => 4⟩, fun _ => -1, dirId, fun y => (y 0 : ℚ)⟩

/-- The ramp image with zero spacing on axis 0. -/
def imgZeroSpacing : InputImage 1 :=
  ⟨⟨fun _ => 0, fun _ => 4⟩, fun _ => 0, dirId, fun y => (y 0 : ℚ)⟩

/-- A constant image of value 5 on buffered region `[0, 4)`, spacing 3. -/
def imgConst : InputImage 1 := ⟨⟨fun _ => 0, fun _ => 4⟩, fun _ => 3, dirId, fun _ => 5⟩

/-- The ramp image with direction matrix `(2)`. -/
def imgDirTwo : InputImage 1 :=
  ⟨⟨fun _ => 0, fun _ => 4⟩, fun _ => 1, fun _ _ => 2, fun y => (y 0 : ℚ)⟩

/- Section:
The claims.
-/

/-- C1: for every output region and per-axis halo radius, the boundary-face
decomposition is an exact partition of that region — every index of the
region lies in exactly one face, no gaps, no overlaps — and each face is
tagged interior (full neighborhood inside the buffered region) or boundary
(within the radius of an edge of the buffered region). -/
theorem faces_exact_partition_of_region {N : ℕ} (B R : Region N) (rad : Fin N → ℕ) :
    (∀ x, List.countP (fun f => decide (Region.mem f.region x)) (computeFaceList B R rad)
        = if R.mem x then 1 else 0)
    ∧ (∀ f ∈ computeFaceList B R rad, f.isInterior = true →
        ∀ x, f.region.mem x → fullNbhd B rad x)
    ∧ (∀ f ∈ computeFaceList B R rad, f.isInterior = false →
        ∀ x, f.region.mem x → nearEdge B rad x) := by
  refine ⟨faceList_countP B R rad, ?_, ?_⟩
  · intro f hf htag x hx
    rcases List.mem_cons.mp hf with hhead | hmap
    · intro i
      have hint : (decompose B rad (List.finRange N) R).1.mem x := by
        rw [hhead] at hx
        exact hx
      exact decompose_interior_fullNbhd B rad (List.finRange N) R x hint i
        (List.mem_finRange i)
    · obtain ⟨r, hr, hrf⟩ := List.mem_map.mp hmap
      rw [← hrf] at htag
      simp at htag
  · intro f hf htag x hx
    rcases List.mem_cons.mp hf with hhead | hmap
    · rw [hhead] at htag
      simp at htag
    · obtain ⟨r, hr, hrf⟩ := List.mem_map.mp hmap
      have hxr : r.mem x := by
        rw [← hrf] at hx
        exact hx
      exact decompose_boundary_nearEdge B rad (List.finRange N) R r hr x hxr

/-- C1 witness: for the buffered region `[0,10)`, output region `[0,3)` and
radius 1, the index 0 is covered exactly once, the interior face's index 1
has its full radius-1 neighborhood inside the buffered region, and the
boundary face containing index 0 is within radius of an edge. -/
theorem faces_exact_partition_of_region_witness :
    List.countP (fun f => decide (Region.mem f.region (fun _ => 0)))
        (computeFaceList bufTen regLowThree (fun _ => 1)) = 1
    ∧ fullNbhd bufTen (fun _ => 1) (fun _ => 1)
    ∧ nearEdge bufTen (fun _ => 1) (fun _ => 0) := by
  have h := faces_exact_partition_of_region bufTen regLowThree (fun _ => 1)
  refine ⟨?_, ?_, ?_⟩
  · have h1 := h.1 (fun _ => 0)
    rwa [if_pos (by decide)] at h1
  · exact h.2.1 _ (List.mem_cons_self _ _) rfl (fun _ => 1) (by decide)
  · exact h.2.2 ((computeFaceList bufTen regLowThree (fun _ => 1)).get ⟨1, by decide⟩)
      (List.get_mem _ _ _) (by decide) (fun _ => 0) (by decide)

/-- C2 counterexample: with output requested region `[0,4)`, largest
possible region `[0,10)` and order of accuracy 2 (radius 2), the padded
region `[-2,6)` is not inside the largest region — cropping must truncate
it — yet `GenerateInputRequestedRegion` succeeds with the truncated region
`[0,6)` and throws no `RegionError`; and the region it records is the
truncated one, which differs from the uncropped padded region. -/
theorem gir_truncation_no_error_counterexample :
    ¬ Region.isInside (padByRadius regFour (operatorRadius 2)) bufTen
    ∧ generateInputRequestedRegion true true regFour bufTen 2
        = .ok (cropRegion (padByRadius regFour (operatorRadius 2)) bufTen)
    ∧ cropRegion (padByRadius regFour (operatorRadius 2)) bufTen
        ≠ padByRadius regFour (operatorRadius 2)
    ∧ ∀ rec, generateInputRequestedRegion true true regFour bufTen 2
        ≠ GIRResult.regionError rec := by
  refine ⟨by decide, by decide, by decide, ?_⟩
  intro rec h
  rw [show generateInputRequestedRegion true true regFour bufTen 2
      = .ok (cropRegion (padByRadius regFour (operatorRadius 2)) bufTen) from by decide] at h
  exact GIRResult.noConfusion h

/-- C2 (amended): `GenerateInputRequestedRegion` throws a `RegionError`
exactly when the radius-padded output region is disjoint from the largest
possible region along some axis (cropping impossible), and the requested
region it records before throwing equals the uncropped radius-padded
region; when cropping merely truncates, it records the truncated region
and returns without error. -/
theorem gir_regionError_records_uncropped_padded {N : ℕ}
    (outputRequested largest : Region N) (m : ℕ) :
    (¬cropPossible (padByRadius outputRequested (operatorRadius m)) largest →
      generateInputRequestedRegion true true outputRequested largest m
        = .regionError (padByRadius outputRequested (operatorRadius m)))
    ∧ (cropPossible (padByRadius outputRequested (operatorRadius m)) largest →
      generateInputRequestedRegion true true outputRequested largest m
        = .ok (cropRegion (padByRadius outputRequested (operatorRadius m)) largest)) :=
  ⟨gir_error outputRequested largest m, gir_ok outputRequested largest m⟩

/-- C2 witness: the padded region `[19,23)` of output region `[20,22)` at
radius 1 is disjoint from `[0,10)`; the call throws and records `[19,23)`,
the uncropped padded region. -/
theorem gir_regionError_records_uncropped_padded_witness :
    ¬cropPossible (padByRadius regFar (operatorRadius 1)) bufTen
    ∧ generateInputRequestedRegion true true regFar bufTen 1
        = .regionError (padByRadius regFar (operatorRadius 1)) :=
  ⟨by decide, (gir_regionError_records_uncropped_padded regFar bufTen 1).1 (by decide)⟩

/-- C5: when both grid references are present and the crop succeeds, the
new input requested region is `crop(pad(outputRegion, radius), validRegion)`
with the radius of the order-1 derivative kernel at the configured order of
accuracy; when either reference is absent the call returns immediately with
no error and no mutation. -/
theorem gir_functional_contract {N : ℕ} (ip op : Bool)
    (outputRequested largest : Region N) (m : ℕ) :
    ((ip = false ∨ op = false) →
      generateInputRequestedRegion ip op outputRequested largest m = .noop)
    ∧ (ip = true → op = true →
        cropPossible (padByRadius outputRequested (operatorRadius m)) largest →
      generateInputRequestedRegion ip op outputRequested largest m
        = .ok (cropRegion (padByRadius outputRequested (operatorRadius m)) largest)) := by
  constructor
  · exact gir_noop ip op outputRequested largest m
  · intro h1 h2 h3
    subst h1
    subst h2
    exact gir_ok outputRequested largest m h3

/-- C5 witness: with both references present, output region `[1,3)` and
order of accuracy 2 (radius 2) inside `[0,10)`, the requested input region
becomes the cropped padded region `[0,5)`; with the input reference absent
the call is a no-op. -/
theorem gir_functional_contract_witness :
    generateInputRequestedRegion true true regMid bufTen 2
      = .ok (cropRegion (padByRadius regMid (operatorRadius 2)) bufTen)
    ∧ generateInputRequestedRegion false true regMid bufTen 2 = .noop :=
  ⟨(gir_functional_contract true true regMid bufTen 2).2 rfl rfl (by decide),
   (gir_functional_contract false true regMid bufTen 2).1 (Or.inl rfl)⟩

/-- C3 counterexample: with `UseImageSpacing` on and spacing `-1` on axis 0
(negative), the per-region compute raises no error at all — the code only
rejects spacing exactly zero — so negative spacing does not produce the
claimed `InvalidParameterError`; moreover the raised message for zero
spacing is a fixed string that names no axis. -/
theorem negative_spacing_no_error_counterexample :
    (dynamicThreadedGenerateData ⟨true, false, 1⟩ imgNegSpacing regMid (fun _ _ => 0)).1
      = none := by
  have h := dynamicThreaded_apply ⟨true, false, 1⟩ imgNegSpacing regMid (fun _ _ => 0)
    (by decide) (fun _ => 0)
  exact h.1

/-- C3 (amended): zero spacing on some axis raises the fatal error (with
the fixed description "Image spacing cannot be zero.", which names no axis)
before any sample is processed, and the output grid is left completely
unmodified; negative spacing is not detected. -/
theorem zero_spacing_error_before_any_write {N : ℕ} (cfg : GradConfig)
    (img : InputImage N) (outputRegion : Region N)
    (out0 : (Fin N → ℤ) → Fin N → ℚ)
    (hs : cfg.useImageSpacing = true) (hz : ∃ i, img.spacing i = 0) :
    dynamicThreadedGenerateData cfg img outputRegion out0
      = (some ⟨"Image spacing cannot be zero."⟩, out0) :=
  dynamicThreaded_fault cfg img outputRegion out0 ⟨hs, hz⟩

/-- C3 witness: zero spacing on the ramp image raises the error and leaves
the (all-7) output untouched. -/
theorem zero_spacing_error_before_any_write_witness :
    dynamicThreadedGenerateData ⟨true, true, 2⟩ imgZeroSpacing regMid (fun _ _ => 7)
      = (some ⟨"Image spacing cannot be zero."⟩, fun _ _ => 7) :=
  zero_spacing_error_before_any_write ⟨true, true, 2⟩ imgZeroSpacing regMid (fun _ _ => 7)
    rfl ⟨0, rfl⟩

/-- C4: for every processed sample and every axis `i`, the `i`-th component
of the raw gradient written to the output (direction-correction off) is
the inner product of the `2r+1` neighborhood samples along axis `i` with
that axis's effective kernel coefficients — the coefficients exactly as
delivered (flipped, spacing-scaled), with no further reordering or scaling
at convolution time. -/
theorem gradient_component_is_inner_product {N : ℕ} (cfg : GradConfig)
    (img : InputImage N) (outputRegion : Region N)
    (out0 : (Fin N → ℤ) → Fin N → ℚ) (x : Fin N → ℤ) (i : Fin N)
    (hok : ¬(cfg.useImageSpacing ∧ ∃ j, img.spacing j = 0))
    (hmem : outputRegion.mem x) (hdir : cfg.useImageDirection = false) :
    (dynamicThreadedGenerateData cfg img outputRegion out0).2 x i
      = ∑ k ∈ Finset.range (2 * operatorRadius cfg.orderOfAccuracy + 1),
          sampleAt img x i ((k : ℤ) - (operatorRadius cfg.orderOfAccuracy : ℤ))
            * effectiveCoeff cfg.useImageSpacing cfg.orderOfAccuracy img.spacing i
                ((k : ℤ) - (operatorRadius cfg.orderOfAccuracy : ℤ)) := by
  rw [(dynamicThreaded_apply cfg img outputRegion out0 hok x).2, if_pos hmem]
  simp only [storedValue, hdir, Bool.false_eq_true, if_false]
  rfl

/-- C4 witness: on the unit-spacing ramp image with order of accuracy 1,
the gradient stored at index 1 is the inner product value 1. -/
theorem gradient_component_is_inner_product_witness :
    Region.mem regMid (fun _ => 1)
    ∧ (dynamicThreadedGenerateData ⟨true, false, 1⟩ imgRamp regMid
        (fun _ _ => 0)).2 (fun _ => 1) 0 = 1 := by
  refine ⟨by decide, ?_⟩
  have h := gradient_component_is_inner_product ⟨true, false, 1⟩ imgRamp regMid
    (fun _ _ => 0) (fun _ => 1) 0 (by decide) (by decide) rfl
  rw [h]
  simp [Finset.sum_range_succ, sampleAt, effectiveCoeff, operatorRadius, scaleCoeff,
    flipCoeff, buildCoeff, khanOhbaWeight, clampIndex, imgRamp, Function.update,
    Nat.factorial]
  norm_num

/-- C6: for every processed sample, the value stored in the output grid is
`directionMatrix × rawGradient` when direction-correction is enabled and
the raw gradient unchanged when disabled — a choice depending only on the
flag and that sample's raw vector. -/
theorem stored_value_direction_choice {N : ℕ} (cfg : GradConfig)
    (img : InputImage N) (outputRegion : Region N)
    (out0 : (Fin N → ℤ) → Fin N → ℚ) (x : Fin N → ℤ)
    (hok : ¬(cfg.useImageSpacing ∧ ∃ j, img.spacing j = 0))
    (hmem : outputRegion.mem x) :
    (dynamicThreadedGenerateData cfg img outputRegion out0).2 x
      = if cfg.useImageDirection then applyDirection img.direction (rawGradient cfg img x)
        else rawGradient cfg img x := by
  rw [(dynamicThreaded_apply cfg img outputRegion out0 hok x).2, if_pos hmem, storedValue]

/-- C6 witness: with direction matrix `(2)` and direction-correction on,
the ramp image's unit raw gradient is stored as 2. -/
theorem stored_value_direction_choice_witness :
    (dynamicThreadedGenerateData ⟨true, true, 1⟩ imgDirTwo regMid
        (fun _ _ => 0)).2 (fun _ => 1) 0 = 2 := by
  have h := stored_value_direction_choice ⟨true, true, 1⟩ imgDirTwo regMid
    (fun _ _ => 0) (fun _ => 1) (by decide) (by decide)
  rw [h]
  simp [applyDirection, rawGradient, Finset.sum_range_succ, sampleAt, effectiveCoeff,
    operatorRadius, scaleCoeff, flipCoeff, buildCoeff, khanOhbaWeight, clampIndex,
    imgDirTwo, Function.update, Nat.factorial]
  norm_num

/-- C7: for every input grid and disjoint output sub-regions `A` and `B`
whose union is the region `U`, running the per-region compute on `A` and
then on `B` writes, at every index, exactly the same value as running it
once on `U`. -/
theorem disjoint_subregions_union_equal {N : ℕ} (cfg : GradConfig)
    (img : InputImage N) (A B U : Region N) (out0 : (Fin N → ℤ) → Fin N → ℚ)
    (hdisj : ∀ x, ¬(A.mem x ∧ B.mem x))
    (hunion : ∀ x, U.mem x ↔ A.mem x ∨ B.mem x) (x : Fin N → ℤ) :
    (dynamicThreadedGenerateData cfg img U out0).2 x
      = (dynamicThreadedGenerateData cfg img B
          (dynamicThreadedGenerateData cfg img A out0).2).2 x := by
  by_cases hok : cfg.useImageSpacing ∧ ∃ i, img.spacing i = 0
  · rw [dynamicThreaded_fault cfg img U out0 hok, dynamicThreaded_fault cfg img A out0 hok]
    rw [show ((some (⟨"Image spacing cannot be zero."⟩ : FilterError), out0)).2 = out0
      from rfl]
    rw [dynamicThreaded_fault cfg img B out0 hok]
  · have hBx := (dynamicThreaded_apply cfg img B
      (dynamicThreadedGenerateData cfg img A out0).2 hok x).2
    rw [(dynamicThreaded_apply cfg img U out0 hok x).2, hBx,
      (dynamicThreaded_apply cfg img A out0 hok x).2]
    have hu := hunion x
    by_cases hA : A.mem x <;> by_cases hB : B.mem x <;>
      simp [hA, hB, hu, iff_true, iff_false]

/-- C7 witness: on the ramp image, computing `[1,2)` then `[2,3)` agrees at
index 2 with computing `[1,3)` in one call. -/
theorem disjoint_subregions_union_equal_witness :
    (dynamicThreadedGenerateData ⟨true, false, 1⟩ imgRamp regMid (fun _ _ => 0)).2
        (fun _ => 2) 0
      = (dynamicThreadedGenerateData ⟨true, false, 1⟩ imgRamp ⟨fun _ => 2, fun _ => 1⟩
          (dynamicThreadedGenerateData ⟨true, false, 1⟩ imgRamp ⟨fun _ => 1, fun _ => 1⟩
            (fun _ _ => 0)).2).2 (fun _ => 2) 0 := by
  have h := disjoint_subregions_union_equal ⟨true, false, 1⟩ imgRamp
    ⟨fun _ => 1, fun _ => 1⟩ ⟨fun _ => 2, fun _ => 1⟩ regMid (fun _ _ => 0)
    (by
      intro x hx
      have h1 := hx.1 0
      have h2 := hx.2 0
      simp only at h1 h2
      omega)
    (by
      intro x
      constructor
      · intro h
        have h0 := h 0
        simp only [regMid] at h0
        by_cases hlt : x 0 < 2
        · refine Or.inl (fun i => ?_)
          have hi : i = 0 := Subsingleton.elim i 0
          subst hi
          simp only
          omega
        · refine Or.inr (fun i => ?_)
          have hi : i = 0 := Subsingleton.elim i 0
          subst hi
          simp only
          omega
      · intro h i
        have hi : i = 0 := Subsingleton.elim i 0
        subst hi
        simp only [regMid]
        rcases h with h | h
        · have h0 := h 0
          simp only at h0
          omega
        · have h0 := h 0
          simp only at h0
          omega)
    (fun _ => 2)
  exact congrFun h 0

/-- C8: when the grid's direction-cosine matrix is the identity, the output
with direction-correction enabled is identical to the output with it
disabled, all other settings equal. -/
theorem identity_direction_output_invariant {N : ℕ} (s d : Bool) (m : ℕ)
    (img : InputImage N) (outputRegion : Region N)
    (out0 : (Fin N → ℤ) → Fin N → ℚ)
    (hid : ∀ j k, img.direction j k = if j = k then 1 else 0) :
    dynamicThreadedGenerateData ⟨s, true, m⟩ img outputRegion out0
      = dynamicThreadedGenerateData ⟨s, false, m⟩ img outputRegion out0 := by
  have hstored : storedValue (⟨s, true, m⟩ : GradConfig) img
      = storedValue (⟨s, false, m⟩ : GradConfig) img := by
    funext x
    exact applyDirection_id img.direction hid
      (rawGradient (⟨s, false, m⟩ : GradConfig) img x)
  by_cases hok : (⟨s, true, m⟩ : GradConfig).useImageSpacing ∧ ∃ i, img.spacing i = 0
  · rw [dynamicThreaded_fault ⟨s, true, m⟩ img outputRegion out0 hok,
      dynamicThreaded_fault ⟨s, false, m⟩ img outputRegion out0 hok]
  · refine Prod.ext ?_ ?_
    · rw [(dynamicThreaded_apply ⟨s, true, m⟩ img outputRegion out0 hok (fun _ => 0)).1,
        (dynamicThreaded_apply ⟨s, false, m⟩ img outputRegion out0 hok (fun _ => 0)).1]
    · funext x
      rw [(dynamicThreaded_apply ⟨s, true, m⟩ img outputRegion out0 hok x).2,
        (dynamicThreaded_apply ⟨s, false, m⟩ img outputRegion out0 hok x).2, hstored]

/-- C8 witness: on the ramp image (identity direction), the outputs with
the flag on and off agree at index 1. -/
theorem identity_direction_output_invariant_witness :
    (dynamicThreadedGenerateData ⟨true, true, 1⟩ imgRamp regMid (fun _ _ => 0)).2
        (fun _ => 1) 0
      = (dynamicThreadedGenerateData ⟨true, false, 1⟩ imgRamp regMid (fun _ _ => 0)).2
        (fun _ => 1) 0 := by
  have h := identity_direction_output_invariant true true 1 imgRamp regMid (fun _ _ => 0)
    (fun j k => by
      have hj : j = 0 := Subsingleton.elim j 0
      have hk : k = 0 := Subsingleton.elim k 0
      subst hj
      subst hk
      simp [imgRamp, dirId])
  rw [h]

/-- C9: for every constant-valued input grid, every component of every
computed gradient is 0, for any order of accuracy, spacing, or direction
setting (with valid spacing, so that computation happens at all). -/
theorem constant_grid_zero_gradient {N : ℕ} (cfg : GradConfig) (img : InputImage N)
    (outputRegion : Region N) (out0 : (Fin N → ℤ) → Fin N → ℚ) (c : ℚ)
    (x : Fin N → ℤ) (i : Fin N)
    (hconst : ∀ y, img.data y = c)
    (hmem : outputRegion.mem x)
    (hok : ¬(cfg.useImageSpacing ∧ ∃ j, img.spacing j = 0)) :
    (dynamicThreadedGenerateData cfg img outputRegion out0).2 x i = 0 := by
  rw [(dynamicThreaded_apply cfg img outputRegion out0 hok x).2, if_pos hmem, storedValue]
  have hraw : rawGradient cfg img x = fun _ => 0 := by
    funext j
    rw [rawGradient]
    have heach : ∀ k ∈ Finset.range (2 * operatorRadius cfg.orderOfAccuracy + 1),
        sampleAt img x j ((k : ℤ) - (operatorRadius cfg.orderOfAccuracy : ℤ))
            * effectiveCoeff cfg.useImageSpacing cfg.orderOfAccuracy img.spacing j
                ((k : ℤ) - (operatorRadius cfg.orderOfAccuracy : ℤ))
          = c * effectiveCoeff cfg.useImageSpacing cfg.orderOfAccuracy img.spacing j
                ((k : ℤ) - (operatorRadius cfg.orderOfAccuracy : ℤ)) := by
      intro k _
      rw [sampleAt, hconst]
    rw [Finset.sum_congr rfl heach, ← Finset.mul_sum,
      sum_effectiveCoeff_eq_zero cfg.useImageSpacing cfg.orderOfAccuracy img.spacing j,
      mul_zero]
  rw [hraw]
  by_cases hd : cfg.useImageDirection
  · simp [hd, applyDirection]
  · simp [hd]

/-- C9 witness: on the constant-5 image with order of accuracy 3, spacing 3
and direction-correction on, the gradient at index 1 is 0. -/
theorem constant_grid_zero_gradient_witness :
    (dynamicThreadedGenerateData ⟨true, true, 3⟩ imgConst regMid (fun _ _ => 0)).2
      (fun _ => 1) 0 = 0 :=
  constant_grid_zero_gradient ⟨true, true, 3⟩ imgConst regMid (fun _ _ => 0) 5
    (fun _ => 1) 0 (fun _ => rfl) (by decide) (by decide)

/-- C10: when `UseImageSpacing` is off, the spacing validity check is
skipped entirely — for every input grid, including zero or negative
spacing, the per-region compute raises no spacing error — and no
`1/spacing` scaling is applied to any kernel: the effective coefficients
are exactly the flipped as-built coefficients. -/
theorem spacing_check_skipped_when_disabled {N : ℕ} (img : InputImage N)
    (outputRegion : Region N) (out0 : (Fin N → ℤ) → Fin N → ℚ) (d : Bool) (m : ℕ) :
    (dynamicThreadedGenerateData ⟨false, d, m⟩ img outputRegion out0).1 = none
    ∧ ∀ i, effectiveCoeff (false : Bool) m img.spacing i = flipCoeff (buildCoeff m) := by
  constructor
  · exact (dynamicThreaded_apply ⟨false, d, m⟩ img outputRegion out0 (by simp)
      (fun _ => 0)).1
  · intro i
    rfl

end ITKHOAG
